import Mathlib

set_option maxRecDepth 100000

/- Shallow embedding of the two command-line utilities of the repository:
   the single-line comment cleaner (clean_comments.py) and the version
   synchronizer (update_version.py).

   Modelling conventions:
   - A Python string is a `List Char`; a file is a `List (List Char)` of lines
     as produced by readlines (each line normally ends with a newline char).
   - Python str.strip and the regex class \s are modelled at ASCII level
     (space, tab, newline, carriage return, vertical tab, form feed); the
     regex class \w and re.IGNORECASE are modelled exactly on ASCII, and any
     non-ASCII character counts as a word character (this agrees with Python
     on every character appearing in this development).
   - File system effects of clean_file are modelled by explicit boolean
     parameters for the decode and write outcomes; the on-disk content is the
     line list.  Per the external-interface contract of the spec the writer
     leaves old content intact when a write fails. -/

/-- ASCII model of Python str.strip / regex \s whitespace. -/
def isWs (c : Char) : Bool :=
  c = ' ' || c = '\t' || c = '\n' || c = '\r' || c = '\x0b' || c = '\x0c'

/-- The single-quote character (code 39). -/
def squote : Char := Char.ofNat 39

/-- The backtick / template-literal quote character (code 96). -/
def bquote : Char := Char.ofNat 96

/-- The three quote characters recognised by the line scanner of clean_file. -/
def isQuote (c : Char) : Bool := c = '"' || c = squote || c = bquote

/-- Model of the Python regex class \w: exact on ASCII, and every non-ASCII
    character counts as a word character. -/
def isWordChar (c : Char) : Bool := c.isAlphanum || c = '_' || 127 < c.toNat

/-- Python str.lstrip (whitespace). -/
def pyLstrip (l : List Char) : List Char := l.dropWhile isWs

/-- Python str.rstrip (whitespace). -/
def pyRstrip (l : List Char) : List Char := (l.reverse.dropWhile isWs).reverse

/-- Python str.strip (whitespace). -/
def pyStrip (l : List Char) : List Char := pyRstrip (pyLstrip l)

/-- ASCII lowercasing of a line, modelling str.lower. -/
def toLowerList (l : List Char) : List Char := l.map Char.toLower

/-- Python substring membership test (the `in` operator on str). -/
def containsSub (p : List Char) : List Char → Bool
  | [] => p.isEmpty
  | c :: rest => p.isPrefixOf (c :: rest) || containsSub p rest

/-- Case-insensitive startswith, modelling an anchored re.match of a literal
    pattern with re.IGNORECASE. -/
def startsWithCI (p : String) (s : List Char) : Bool :=
  (toLowerList p.toList).isPrefixOf (toLowerList s)

/-- The two-character comment marker. -/
def slashSlash : List Char := ['/', '/']

/-- important_keywords of CommentCleaner.should_preserve_comment
    (clean_comments.py lines 80-84). -/
def important_keywords : List String :=
  ["important", "critical", "warning", "danger", "security",
   "performance", "optimization", "config", "configuration",
   "api", "endpoint", "url", "path", "route", "middleware"]

/-- The 18 preserve_patterns of CommentCleaner (clean_comments.py lines
    27-46), all of the form `^\s*//\s*REST`, matched with re.match and
    re.IGNORECASE against the stripped line.  The REST parts in source
    order: `@\w+`, `eslint-`, `prettier-`, `TODO:`, `FIXME:`, `NOTE:`,
    `HACK:`, `XXX:`, `Copyright`, `License`, `Author`, `https?://`,
    `\d+\.`, `-\s`, `\*\s`, `=+`, `-+`, `\*+`. -/
def matches_preserve_patterns (s : List Char) : Bool :=
  let t := List.dropWhile isWs s
  if slashSlash.isPrefixOf t then
    let u := List.dropWhile isWs (t.drop 2)
    (match u with
     | '@' :: c :: _ => isWordChar c
     | _ => false)
    || startsWithCI ("eslint-") u
    || startsWithCI ("prettier-") u
    || startsWithCI ("todo:") u
    || startsWithCI ("fixme:") u
    || startsWithCI ("note:") u
    || startsWithCI ("hack:") u
    || startsWithCI ("xxx:") u
    || startsWithCI ("copyright") u
    || startsWithCI ("license") u
    || startsWithCI ("author") u
    || startsWithCI ("http://") u
    || startsWithCI ("https://") u
    || (!(u.takeWhile Char.isDigit).isEmpty
        && (u.dropWhile Char.isDigit).head? == some '.')
    || (match u with
        | '-' :: c :: _ => isWs c
        | _ => false)
    || (match u with
        | '*' :: c :: _ => isWs c
        | _ => false)
    || u.head? == some '='
    || u.head? == some '-'
    || u.head? == some '*'
  else false

/-- CommentCleaner.should_preserve_comment (clean_comments.py lines 66-90):
    preserve patterns on the stripped line, then block-comment delimiters on
    the raw line or a leading star on the stripped line, then a substring
    check of the important keywords on the lowercased raw line. -/
def should_preserve_comment (line : List Char) : Bool :=
  let s := pyStrip line
  matches_preserve_patterns s
  || containsSub ['/', '*'] line
  || containsSub ['*', '/'] line
  || s.head? == some '*'
  || important_keywords.any (fun kw => containsSub kw.toList (toLowerList line))

/-- The two remove_patterns of CommentCleaner (clean_comments.py lines
    49-52), matched with re.match against the stripped line:
    `^\s*//\s*$` (empty comment line) and `^\s*//\s+\w+.*$` (a general
    descriptive comment).  Lines produced by readlines contain no interior
    newline, so `.*$` always matches the remainder. -/
def matches_remove_patterns (s : List Char) : Bool :=
  let t := List.dropWhile isWs s
  if slashSlash.isPrefixOf t then
    let u := t.drop 2
    (List.dropWhile isWs u).isEmpty
    || (match u with
        | c :: _ =>
          isWs c &&
          (match List.dropWhile isWs u with
           | d :: _ => isWordChar d
           | [] => false)
        | [] => false)
  else false

/-- The comment content extracted at clean_comments.py line 112:
    re.sub of `^\s*//\s*` applied to the stripped line, then stripped.
    When the stripped line does not start with the marker, re.sub replaces
    nothing and the result is the stripped line itself. -/
def comment_body (line : List Char) : List Char :=
  let s := pyStrip line
  let t := List.dropWhile isWs s
  if slashSlash.isPrefixOf t then pyStrip (List.dropWhile isWs (t.drop 2)) else s

/-- useless_patterns of CommentCleaner.should_remove_comment
    (clean_comments.py lines 119-584).  Every pattern there has the shape
    `^(alt|...|alt).*$` with literal alternatives and is matched with
    re.match and re.IGNORECASE against the comment content, so each pattern
    is a case-insensitive prefix test; the table below lists the
    alternatives of each pattern in source order. -/
def useless_patterns : List (List String) := [
  ["导入", "import"],
  ["导出", "export"],
  ["定义", "define"],
  ["创建", "create"],
  ["初始化", "init"],
  ["设置", "set"],
  ["获取", "get"],
  ["处理", "handle"],
  ["渲染", "render"],
  ["组件", "component"],
  ["函数", "function"],
  ["方法", "method"],
  ["变量", "variable"],
  ["状态", "state"],
  ["属性", "prop"],
  ["样式", "style"],
  ["类", "class"],
  ["接口", "interface"],
  ["类型", "type"],
  ["检查", "check"],
  ["如果", "if"],
  ["使用", "use"],
  ["添加", "add"],
  ["移除", "remove"],
  ["更新", "update"],
  ["清理", "clean"],
  ["保存", "save"],
  ["加载", "load"],
  ["监听", "listen"],
  ["回退", "fallback"],
  ["优先", "prefer"],
  ["避免", "avoid"],
  ["确保", "ensure"],
  ["防止", "prevent"],
  ["限制", "limit"],
  ["静默", "silent"],
  ["尝试", "try"],
  ["构建", "build"],
  ["生成", "generate"],
  ["转换", "convert"],
  ["解析", "parse"],
  ["格式化", "format"],
  ["验证", "validate"],
  ["计算", "calculate"],
  ["查找", "find"],
  ["搜索", "search"],
  ["过滤", "filter"],
  ["排序", "sort"],
  ["映射", "map"],
  ["遍历", "iterate"],
  ["循环", "loop"],
  ["条件", "condition"],
  ["判断", "judge"],
  ["比较", "compare"],
  ["匹配", "match"],
  ["替换", "replace"],
  ["分割", "split"],
  ["合并", "merge"],
  ["连接", "join"],
  ["拼接", "concat"],
  ["复制", "copy"],
  ["克隆", "clone"],
  ["深拷贝", "deep copy"],
  ["浅拷贝", "shallow copy"],
  ["序列化", "serialize"],
  ["反序列化", "deserialize"],
  ["编码", "encode"],
  ["解码", "decode"],
  ["压缩", "compress"],
  ["解压", "decompress"],
  ["缓存", "cache"],
  ["存储", "store"],
  ["读取", "read"],
  ["写入", "write"],
  ["删除", "delete"],
  ["重置", "reset"],
  ["清空", "clear"],
  ["刷新", "refresh"],
  ["重新加载", "reload"],
  ["重新渲染", "re-render"],
  ["重新计算", "recalculate"],
  ["重新构建", "rebuild"],
  ["重新初始化", "reinitialize"],
  ["重新设置", "reset"],
  ["重新配置", "reconfigure"],
  ["重新连接", "reconnect"],
  ["重新启动", "restart"],
  ["重新开始", "restart"],
  ["重新执行", "re-execute"],
  ["重新运行", "re-run"],
  ["重新调用", "re-call"],
  ["重新发送", "resend"],
  ["重新请求", "re-request"],
  ["重新获取", "re-fetch"],
  ["重新查询", "re-query"],
  ["重新搜索", "re-search"],
  ["重新查找", "re-find"],
  ["重新匹配", "re-match"],
  ["重新验证", "re-validate"],
  ["重新检查", "re-check"],
  ["重新测试", "re-test"],
  ["重新尝试", "retry"],
  ["API请求", "API request"],
  ["节流", "throttle"],
  ["防抖", "debounce"],
  ["延迟", "delay"],
  ["定时器", "timer"],
  ["计时器", "counter"],
  ["时间戳", "timestamp"],
  ["日期", "date"],
  ["时间", "time"],
  ["年", "year"],
  ["月", "month"],
  ["日", "day"],
  ["小时", "hour"],
  ["分钟", "minute"],
  ["秒", "second"],
  ["毫秒", "millisecond"],
  ["微秒", "microsecond"],
  ["纳秒", "nanosecond"],
  ["即使", "even"],
  ["无论", "regardless"],
  ["不管", "no matter"],
  ["当", "when"],
  ["在", "at", "in"],
  ["从", "from"],
  ["到", "to"],
  ["向", "towards"],
  ["对于", "for"],
  ["关于", "about"],
  ["基于", "based on"],
  ["根据", "according to"],
  ["依据", "based on"],
  ["按照", "according to"],
  ["遵循", "follow"],
  ["符合", "conform to"],
  ["满足", "satisfy"],
  ["达到", "reach"],
  ["实现", "achieve"],
  ["完成", "complete"],
  ["结束", "end"],
  ["开始", "start"],
  ["启动", "launch"],
  ["停止", "stop"],
  ["暂停", "pause"],
  ["继续", "continue"],
  ["恢复", "resume"],
  ["中断", "interrupt"],
  ["取消", "cancel"],
  ["终止", "terminate"],
  ["退出", "exit"],
  ["返回", "return"],
  ["跳转", "jump"],
  ["跳过", "skip"],
  ["忽略", "ignore"],
  ["排除", "exclude"],
  ["包含", "include"],
  ["包括", "including"],
  ["除了", "except"],
  ["除非", "unless"],
  ["只有", "only"],
  ["仅", "only"],
  ["仅仅", "just"],
  ["只是", "just"],
  ["只需", "just need"],
  ["只要", "as long as"],
  ["只能", "can only"],
  ["只会", "will only"],
  ["只在", "only in"],
  ["只对", "only for"],
  ["只用", "only use"],
  ["只支持", "only support"],
  ["只允许", "only allow"],
  ["只接受", "only accept"],
  ["只处理", "only handle"],
  ["只显示", "only show"],
  ["只返回", "only return"],
  ["只传递", "only pass"],
  ["直接", "directly"],
  ["间接", "indirectly"],
  ["立即", "immediately"],
  ["马上", "right away"],
  ["稍后", "later"],
  ["之后", "after"],
  ["之前", "before"],
  ["同时", "meanwhile"],
  ["然后", "then"],
  ["接着", "next"],
  ["最后", "finally"],
  ["首先", "first"],
  ["其次", "second"],
  ["再次", "again"],
  ["另外", "additionally"],
  ["此外", "besides"],
  ["而且", "moreover"],
  ["并且", "and"],
  ["或者", "or"],
  ["要么", "either"],
  ["既然", "since"],
  ["因为", "because"],
  ["由于", "due to"],
  ["所以", "so"],
  ["因此", "therefore"],
  ["结果", "result"],
  ["导致", "cause"],
  ["引起", "trigger"],
  ["产生", "generate"],
  ["形成", "form"],
  ["构成", "constitute"],
  ["组成", "compose"],
  ["包含", "contain"],
  ["拥有", "have"],
  ["具有", "possess"],
  ["存在", "exist"],
  ["出现", "appear"],
  ["发生", "happen"],
  ["发现", "discover"],
  ["找到", "found"],
  ["获得", "obtain"],
  ["得到", "get"],
  ["收到", "receive"],
  ["接收", "receive"],
  ["发送", "send"],
  ["传送", "transmit"],
  ["传递", "pass"],
  ["传输", "transfer"],
  ["输入", "input"],
  ["输出", "output"],
  ["导入", "import"],
  ["导出", "export"],
  ["引入", "introduce"],
  ["引用", "reference"],
  ["调用", "call"],
  ["执行", "execute"],
  ["运行", "run"],
  ["启用", "enable"],
  ["禁用", "disable"],
  ["开启", "turn on"],
  ["关闭", "turn off"],
  ["打开", "open"],
  ["关闭", "close"],
  ["显示", "show"],
  ["隐藏", "hide"],
  ["可见", "visible"],
  ["不可见", "invisible"],
  ["可用", "available"],
  ["不可用", "unavailable"],
  ["有效", "valid"],
  ["无效", "invalid"],
  ["正确", "correct"],
  ["错误", "error"],
  ["成功", "success"],
  ["失败", "fail"],
  ["完成", "complete"],
  ["未完成", "incomplete"],
  ["已完成", "completed"],
  ["未开始", "not started"],
  ["进行中", "in progress"],
  ["等待", "waiting"],
  ["准备", "ready"],
  ["就绪", "ready"],
  ["空闲", "idle"],
  ["忙碌", "busy"],
  ["活跃", "active"],
  ["非活跃", "inactive"],
  ["在线", "online"],
  ["离线", "offline"],
  ["连接", "connect"],
  ["断开", "disconnect"],
  ["连接中", "connecting"],
  ["已连接", "connected"],
  ["未连接", "disconnected"],
  ["重连", "reconnect"],
  ["超时", "timeout"],
  ["过期", "expired"],
  ["刷新", "refresh"],
  ["更新", "update"],
  ["升级", "upgrade"],
  ["降级", "downgrade"],
  ["回滚", "rollback"],
  ["撤销", "undo"],
  ["重做", "redo"],
  ["恢复", "restore"],
  ["备份", "backup"],
  ["还原", "restore"],
  ["同步", "sync"],
  ["异步", "async"],
  ["并发", "concurrent"],
  ["串行", "serial"],
  ["并行", "parallel"],
  ["顺序", "sequential"],
  ["随机", "random"],
  ["排序", "sort"],
  ["分组", "group"],
  ["分类", "classify"],
  ["分割", "split"],
  ["合并", "merge"],
  ["联合", "union"],
  ["交集", "intersection"],
  ["差集", "difference"],
  ["子集", "subset"],
  ["超集", "superset"],
  ["集合", "set"],
  ["数组", "array"],
  ["列表", "list"],
  ["队列", "queue"],
  ["栈", "stack"],
  ["堆", "heap"],
  ["树", "tree"],
  ["图", "graph"],
  ["节点", "node"],
  ["边", "edge"],
  ["路径", "path"],
  ["深度", "depth"],
  ["广度", "breadth"],
  ["遍历", "traverse"],
  ["搜索", "search"],
  ["查找", "find"],
  ["定位", "locate"],
  ["索引", "index"],
  ["键", "key"],
  ["值", "value"],
  ["对", "pair"],
  ["映射", "mapping"],
  ["字典", "dictionary"],
  ["哈希", "hash"],
  ["散列", "hash"],
  ["表", "table"],
  ["数据库", "database"],
  ["表格", "table"],
  ["行", "row"],
  ["列", "column"],
  ["字段", "field"],
  ["记录", "record"],
  ["条目", "entry"],
  ["项目", "item"],
  ["元素", "element"],
  ["成员", "member"],
  ["属性", "property"],
  ["特性", "feature"],
  ["功能", "function"],
  ["能力", "capability"],
  ["权限", "permission"],
  ["角色", "role"],
  ["用户", "user"],
  ["管理员", "admin"],
  ["访客", "guest"],
  ["会员", "member"],
  ["客户", "customer"],
  ["供应商", "supplier"],
  ["提供商", "provider"],
  ["服务商", "service provider"],
  ["开发者", "developer"],
  ["程序员", "programmer"],
  ["工程师", "engineer"],
  ["架构师", "architect"],
  ["设计师", "designer"],
  ["测试员", "tester"],
  ["分析师", "analyst"],
  ["顾问", "consultant"],
  ["专家", "expert"],
  ["新手", "beginner"],
  ["初学者", "beginner"],
  ["高级", "advanced"],
  ["中级", "intermediate"],
  ["初级", "junior"],
  ["资深", "senior"],
  ["主管", "supervisor"],
  ["经理", "manager"],
  ["总监", "director"],
  ["总裁", "president"],
  ["CEO", "CEO"],
  ["CTO", "CTO"],
  ["CFO", "CFO"],
  ["COO", "COO"],
  ["CMO", "CMO"],
  ["CIO", "CIO"],
  ["CHRO", "CHRO"],
  ["VP", "VP"],
  ["SVP", "SVP"],
  ["EVP", "EVP"],
  ["AVP", "AVP"],
  ["MD", "MD"],
  ["GM", "GM"],
  ["PM", "PM"],
  ["PO", "PO"],
  ["BA", "BA"],
  ["QA", "QA"],
  ["QE", "QE"],
  ["DevOps", "DevOps"],
  ["SRE", "SRE"],
  ["DBA", "DBA"],
  ["SA", "SA"],
  ["SE", "SE"],
  ["FE", "FE"],
  ["BE", "BE"],
  ["FS", "FS"],
  ["UI", "UI"],
  ["UX", "UX"],
  ["UE", "UE"],
  ["PD", "PD"],
  ["RD", "RD"],
  ["OP", "OP"],
  ["OPS", "OPS"],
  ["IT", "IT"],
  ["IS", "IS"],
  ["CS", "CS"],
  ["AI", "AI"],
  ["ML", "ML"],
  ["DL", "DL"],
  ["NLP", "NLP"],
  ["CV", "CV"],
  ["AR", "AR"],
  ["VR", "VR"],
  ["MR", "MR"],
  ["XR", "XR"],
  ["IoT", "IoT"],
  ["IIoT", "IIoT"],
  ["5G", "5G"],
  ["6G", "6G"],
  ["WiFi", "WiFi"],
  ["Bluetooth", "Bluetooth"],
  ["NFC", "NFC"],
  ["RFID", "RFID"],
  ["GPS", "GPS"],
  ["GIS", "GIS"],
  ["API", "API"],
  ["SDK", "SDK"],
  ["IDE", "IDE"],
  ["CLI", "CLI"],
  ["GUI", "GUI"],
  ["TUI", "TUI"],
  ["CUI", "CUI"],
  ["UI", "UI"],
  ["UX", "UX"],
  ["DX", "DX"],
  ["CX", "CX"],
  ["EX", "EX"],
  ["PX", "PX"],
  ["BX", "BX"],
  ["SX", "SX"],
  ["TX", "TX"],
  ["RX", "RX"],
  ["FX", "FX"],
  ["GX", "GX"],
  ["HX", "HX"],
  ["IX", "IX"],
  ["JX", "JX"],
  ["KX", "KX"],
  ["LX", "LX"],
  ["MX", "MX"],
  ["NX", "NX"],
  ["OX", "OX"],
  ["PX", "PX"],
  ["QX", "QX"],
  ["RX", "RX"],
  ["SX", "SX"],
  ["TX", "TX"],
  ["UX", "UX"],
  ["VX", "VX"],
  ["WX", "WX"],
  ["XX", "XX"],
  ["YX", "YX"],
  ["ZX", "ZX"]
]

/-- The useless_patterns loop of clean_comments.py lines 586-588: True iff
    some pattern matches the comment content (anchored, case-insensitive). -/
def useless_match (content : List Char) : Bool :=
  useless_patterns.any (fun alts => alts.any (fun p => startsWithCI p content))

/-- CommentCleaner.should_remove_comment (clean_comments.py lines 92-590),
    with the three rule tables abstracted as predicates so that precedence
    can be stated for arbitrary rule contents: `pres` is applied to the raw
    line (should_preserve_comment), `rm` to the stripped line
    (remove_patterns), `ul` to the extracted comment content
    (useless_patterns).  Aggressive mode only tests for the marker as a
    substring of the stripped line. -/
def should_remove_comment_core (pres rm ul : List Char → Bool)
    (aggressive : Bool) (line : List Char) : Bool :=
  let s := pyStrip line
  if aggressive then containsSub slashSlash s
  else if pres line then false
  else if rm s then true
  else if slashSlash.isPrefixOf (List.dropWhile isWs s) then
    (if (comment_body line).length < 2 then true else ul (comment_body line))
  else false

/-- should_remove_comment with the rule tables of the source. -/
def should_remove_comment (aggressive : Bool) (line : List Char) : Bool :=
  should_remove_comment_core should_preserve_comment matches_remove_patterns
    useless_match aggressive line

/-- Shifts a reported comment offset by one character position. -/
def shift1 (r : Option Nat × Option Char) : Option Nat × Option Char :=
  (r.1.map (· + 1), r.2)

/-- Shifts a reported comment offset by n character positions. -/
def shiftN (n : Nat) (r : Option Nat × Option Char) : Option Nat × Option Char :=
  (r.1.map (· + n), r.2)

/-- The character loop of CommentCleaner.clean_file (clean_comments.py lines
    617-646): walks the line, carrying the in-string state (`st` is the
    current quote character, none when outside a string) and the previous
    character (`prev`, none at the start of a line, which models the j == 0
    disjunct of the closing-quote test).  Outside a string a quote character
    opens a string and the first occurrence of `//` stops the scan (the
    break at line 641 happens with in_string False, so the exit state is
    none); inside a string, the same quote character closes it unless the
    previous character is a backslash.  The reported offset is the index
    from the start of the scanned list. -/
def scanAux (prev st : Option Char) : List Char → Option Nat × Option Char
  | [] => (none, st)
  | c :: rest =>
    match st with
    | none =>
      if isQuote c then shift1 (scanAux (some c) (some c) rest)
      else if c = '/' ∧ rest.head? = some '/' then (some 0, none)
      else shift1 (scanAux (some c) none rest)
    | some q =>
      if c = q ∧ prev ≠ some '\\' then shift1 (scanAux (some c) none rest)
      else shift1 (scanAux (some c) (some q) rest)

/-- One entry of the removed_comments log of clean_file: either a removed
    whole line (logged with the stripped line text) or a removed inline
    suffix (logged with the stripped suffix from the marker on). -/
inductive RemovalEntry where
  | wholeLine (lineNo : Nat) (text : List Char)
  | inlineSuffix (lineNo : Nat) (text : List Char)
deriving DecidableEq, Repr

/-- The per-line body of the loop of clean_file (clean_comments.py lines
    611-649), with the classifier abstracted as `cls`: scans the line from
    entering state `st`; when an unquoted marker is found at offset j and
    the classifier fires, aggressive mode keeps the right-stripped code
    prefix (followed by a newline) when it is nonempty and drops the whole
    line otherwise, while normal mode drops the whole line; in all other
    cases the line passes through unchanged.  Returns the emitted line (or
    none), the state carried to the next line, and the log entry (some iff
    removed_count was incremented for this line). -/
def processLineCore (cls : List Char → Bool) (aggressive : Bool) (i : Nat)
    (st : Option Char) (line : List Char) :
    Option (List Char) × Option Char × Option RemovalEntry :=
  match scanAux none st line with
  | (none, st2) => (some line, st2, none)
  | (some j, st2) =>
    if cls line then
      (if aggressive then
        (let codePart := pyRstrip (line.take j)
         if codePart = [] then
           (none, st2, some (RemovalEntry.wholeLine i (pyStrip line)))
         else
           (some (codePart ++ ['\n']), st2,
            some (RemovalEntry.inlineSuffix i (pyStrip (line.drop j)))))
      else (none, st2, some (RemovalEntry.wholeLine i (pyStrip line))))
    else (some line, st2, none)

/-- The per-line step with the classifier of the source. -/
def processLine (aggressive : Bool) (i : Nat) (st : Option Char)
    (line : List Char) :
    Option (List Char) × Option Char × Option RemovalEntry :=
  processLineCore (should_remove_comment aggressive) aggressive i st line

/-- The line loop of clean_file (clean_comments.py lines 605-649): threads
    the scanner state across lines (initially not inside a string), numbers
    lines from i, and accumulates the new lines, the removal count and the
    removal log. -/
def clean_file_lines (aggressive : Bool) :
    Nat → Option Char → List (List Char) →
    List (List Char) × Nat × List RemovalEntry
  | _, _, [] => ([], 0, [])
  | i, st, l :: ls =>
    match processLine aggressive i st l with
    | (out, st2, e) =>
      match clean_file_lines aggressive (i + 1) st2 ls with
      | (outs, n, log) =>
        (match out with
         | some o => o :: outs
         | none => outs,
         match e with
         | some _ => n + 1
         | none => n,
         match e with
         | some en => en :: log
         | none => log)

/-- CommentCleaner.clean_file (clean_comments.py lines 592-660) as a state
    transformer on the on-disk content.  `decodeOk` models whether the
    content could be read in one of the two supported encodings (on failure
    the file is reported and (0, []) is returned, lines 597-603); `writeOk`
    models the write at lines 652-658 (on failure (0, []) is returned, and
    per the writer contract of spec section 6 the old content stays intact).
    The result is (content on disk afterwards, returned removal count,
    returned removal log). -/
def clean_file_model (aggressive dryRun decodeOk writeOk : Bool)
    (lines : List (List Char)) :
    List (List Char) × Nat × List RemovalEntry :=
  if decodeOk = false then (lines, 0, [])
  else
    match clean_file_lines aggressive 1 none lines with
    | (outs, n, log) =>
      if 0 < n ∧ dryRun = false then
        (if writeOk then (outs, n, log) else (lines, 0, []))
      else (lines, n, log)

/-- The toggle rule the scanner actually implements, per character: outside
    a string any quote character opens a string unconditionally; inside a
    string the same quote character closes it unless the immediately
    preceding character of the line is a backslash (whether or not that
    backslash is itself escaped), a quote at the start of a line always
    closing; a different quote character is inert. -/
def stringStep (prev st : Option Char) (c : Char) : Option Char :=
  match st with
  | none => if isQuote c then some c else none
  | some q => if c = q ∧ prev ≠ some '\\' then none else some q

/-- Folds the toggle rule over a line, threading the previous character. -/
def stringStateFold (prev st : Option Char) : List Char → Option Char
  | [] => st
  | c :: rest => stringStateFold (some c) (stringStep prev st c) rest

/-- The toggle rule as worded by the specification: a quote character
    toggles the inside-string state unless it is immediately preceded by an
    unescaped backslash (tracked here by the boolean flag: a backslash is
    unescaped when not itself preceded by an unescaped backslash), or
    unless the scanner is already inside a string opened by a different
    quote character.  The rule as stated applies to every quote occurrence,
    opening or closing. -/
def claimStringStep : Bool × Option Char → Char → Bool × Option Char
  | (esc, st), c =>
    (c = '\\' ∧ ¬esc,
     match st with
     | none => if isQuote c ∧ ¬esc then some c else none
     | some q => if c = q ∧ ¬esc then none else some q)

/-- The inside-string state after a line, per the toggle rule of the
    specification. -/
def claimStringState (l : List Char) : Option Char :=
  (l.foldl claimStringStep (false, none)).2

/-- True when the scanner state carried across every line boundary of the
    file is the outside-string state. -/
def noCarriedState : Option Char → List (List Char) → Bool
  | _, [] => true
  | st, l :: ls =>
    (scanAux none st l).2 = none && noCarriedState (scanAux none st l).2 ls

/-- Python str.split on a dot separator (keeps empty parts). -/
def splitOnDot : List Char → List (List Char)
  | [] => [[]]
  | c :: rest =>
    if c = '.' then [] :: splitOnDot rest
    else
      match splitOnDot rest with
      | [] => [[c]]
      | p :: ps => (c :: p) :: ps

/-- Accumulating loop of the decimal-literal grammar of Python int():
    digits separated by optional single underscores. -/
def digitsVal (acc : Nat) : List Char → Option Nat
  | [] => some acc
  | c :: rest =>
    if c.isDigit then digitsVal (acc * 10 + (c.toNat - 48)) rest
    else if c = '_' then
      match rest with
      | d :: rest2 =>
        if d.isDigit then digitsVal (acc * 10 + (d.toNat - 48)) rest2 else none
      | [] => none
    else none

/-- Unsigned decimal literal per Python int(): at least one digit, single
    underscores allowed between digits. -/
def parseDigitsU : List Char → Option Nat
  | [] => none
  | c :: rest => if c.isDigit then digitsVal (c.toNat - 48) rest else none

/-- Python int() applied to a string in base 10: surrounding whitespace is
    stripped, one optional sign, then a decimal literal; none models a
    raised ValueError. -/
def pyInt (s : List Char) : Option Int :=
  match pyStrip s with
  | '+' :: rest => (parseDigitsU rest).map Int.ofNat
  | '-' :: rest => (parseDigitsU rest).map (fun n => -(n : Int))
  | t => (parseDigitsU t).map Int.ofNat

/-- The f-string rendering of the three numbers at update_version.py
    line 114. -/
def renderVersion (a b c : Int) : List Char :=
  (toString a).toList ++ '.' :: (toString b).toList ++ '.' :: (toString c).toList

/-- VersionUpdater.increment_version (update_version.py lines 96-114):
    returns ok none when the split does not give exactly three parts
    (the Python function returns None), err when int() raises a ValueError
    on some part, and otherwise the rendered incremented version (an
    unrecognised increment type leaves the three numbers unchanged). -/
def increment_version (version incrementType : List Char) :
    Except Unit (Option (List Char)) :=
  match splitOnDot version with
  | [x, y, z] =>
    match pyInt x, pyInt y, pyInt z with
    | some a, some b, some c =>
      if incrementType = ("major").toList then
        Except.ok (some (renderVersion (a + 1) 0 0))
      else if incrementType = ("minor").toList then
        Except.ok (some (renderVersion a (b + 1) 0))
      else if incrementType = ("patch").toList then
        Except.ok (some (renderVersion a b (c + 1)))
      else Except.ok (some (renderVersion a b c))
    | _, _, _ => Except.error ()
  | _ => Except.ok none

/-- The character class [a-zA-Z0-9.-] of the validate_version regex. -/
def isIdentChar (c : Char) : Bool := c.isAlphanum || c = '.' || c = '-'

/-- Matches `\d+` and returns the remainder, none when no digit leads. -/
def chompDigits : List Char → Option (List Char)
  | [] => none
  | c :: rest =>
    if c.isDigit then some (rest.dropWhile Char.isDigit) else none

/-- Matches a literal dot and returns the remainder. -/
def chompDot : List Char → Option (List Char)
  | '.' :: rest => some rest
  | _ => none

/-- Matches the optional build-metadata group `(\+[a-zA-Z0-9.-]+)?` followed
    by the end of the string. -/
def vvPlus : List Char → Bool
  | [] => true
  | '+' :: c :: rest =>
    if isIdentChar c then ((c :: rest).dropWhile isIdentChar).isEmpty
    else false
  | _ => false

/-- Matches the optional pre-release group `(-[a-zA-Z0-9.-]+)?` followed by
    the build-metadata group and the end of the string. -/
def vvTail : List Char → Bool
  | '-' :: c :: rest =>
    if isIdentChar c then vvPlus ((c :: rest).dropWhile isIdentChar)
    else false
  | l => vvPlus l

/-- VersionUpdater.validate_version (update_version.py lines 49-52): the
    anchored regex `^\d+\.\d+\.\d+(-[a-zA-Z0-9.-]+)?(\+[a-zA-Z0-9.-]+)?$`.
    The character classes of the two optional groups contain no plus sign,
    so greedy matching without backtracking is equivalent. -/
def validate_version (s : List Char) : Bool :=
  match chompDigits s with
  | none => false
  | some r1 =>
    match chompDot r1 with
    | none => false
    | some r2 =>
      match chompDigits r2 with
      | none => false
      | some r3 =>
        match chompDot r3 with
        | none => false
        | some r4 =>
          match chompDigits r4 with
          | none => false
          | some r5 => vvTail r5

/- Helper lemmas about characters, whitespace stripping and substrings. -/

theorem isWs_not_isQuote {c : Char} (h : isWs c = true) : isQuote c = false := by
  simp only [isWs, Bool.or_eq_true, decide_eq_true_eq] at h
  rcases h with ((((h | h) | h) | h) | h) | h <;> subst h <;> decide

theorem isWs_ne_slash {c : Char} (h : isWs c = true) : c ≠ '/' := by
  simp only [isWs, Bool.or_eq_true, decide_eq_true_eq] at h
  rcases h with ((((h | h) | h) | h) | h) | h <;> subst h <;> decide

theorem isQuote_ne_slash {c : Char} (h : isQuote c = true) : c ≠ '/' := by
  simp only [isQuote, Bool.or_eq_true, decide_eq_true_eq] at h
  rcases h with (h | h) | h <;> subst h <;> decide

theorem isQuote_ne_backslash {c : Char} (h : isQuote c = true) : c ≠ '\\' := by
  simp only [isQuote, Bool.or_eq_true, decide_eq_true_eq] at h
  rcases h with (h | h) | h <;> subst h <;> decide

theorem slash_not_ws : isWs '/' = false := by decide

theorem dropWhile_length_le (p : Char → Bool) :
    ∀ (l : List Char), (List.dropWhile p l).length ≤ l.length := by
  intro l
  induction l with
  | nil => simp
  | cons c l ih =>
    by_cases hc : p c = true
    · simp only [List.dropWhile_cons, hc, if_true, List.length_cons]
      exact Nat.le_succ_of_le ih
    · have hc2 : p c = false := by revert hc; cases p c <;> simp
      simp [List.dropWhile_cons, hc2]

theorem dropWhile_append_all {p : Char → Bool} :
    ∀ (a b : List Char), (∀ c ∈ a, p c = true) →
    List.dropWhile p (a ++ b) = List.dropWhile p b := by
  intro a
  induction a with
  | nil => intro b _; rfl
  | cons c a ih =>
    intro b h
    have hc : p c = true := h c (by simp)
    simp only [List.cons_append, List.dropWhile_cons, hc, if_true]
    exact ih b (fun d hd => h d (by simp [hd]))

theorem dropWhile_append_split {p : Char → Bool} :
    ∀ (a b : List Char),
    List.dropWhile p (a ++ b) =
      if List.dropWhile p a = [] then List.dropWhile p b
      else List.dropWhile p a ++ b := by
  intro a
  induction a with
  | nil => intro b; simp
  | cons c a ih =>
    intro b
    by_cases hc : p c = true
    · simp only [List.cons_append, List.dropWhile_cons, hc, if_true]
      exact ih b
    · have hc2 : p c = false := by revert hc; cases p c <;> simp
      simp [List.dropWhile_cons, hc2]

theorem pyRstrip_cons_slashes (l : List Char) :
    pyRstrip ('/' :: '/' :: l) = '/' :: '/' :: pyRstrip l := by
  unfold pyRstrip
  have h1 : ('/' :: '/' :: l).reverse = l.reverse ++ ['/', '/'] := by simp
  rw [h1, dropWhile_append_split]
  split
  · rename_i he
    rw [he]
    simp [List.dropWhile, slash_not_ws]
  · simp [List.reverse_append]

theorem pyStrip_ws_slashes (ws rest : List Char) (h : ∀ c ∈ ws, isWs c = true) :
    pyStrip (ws ++ '/' :: '/' :: rest) = '/' :: '/' :: pyRstrip rest := by
  unfold pyStrip pyLstrip
  rw [dropWhile_append_all ws _ h]
  have h2 : List.dropWhile isWs ('/' :: '/' :: rest) = '/' :: '/' :: rest := by
    simp [List.dropWhile, slash_not_ws]
  rw [h2, pyRstrip_cons_slashes]

theorem pyRstrip_length_le (l : List Char) : (pyRstrip l).length ≤ l.length := by
  unfold pyRstrip
  calc ((l.reverse.dropWhile isWs).reverse).length
      = (l.reverse.dropWhile isWs).length := by simp
    _ ≤ l.reverse.length := dropWhile_length_le _ _
    _ = l.length := by simp

theorem containsSub_shape :
    ∀ (a b : List Char), containsSub slashSlash (a ++ '/' :: '/' :: b) = true := by
  intro a
  induction a with
  | nil =>
    intro b
    simp [containsSub, slashSlash, List.isPrefixOf]
  | cons c a ih =>
    intro b
    simp only [List.cons_append, containsSub, Bool.or_eq_true]
    exact Or.inr (ih b)

theorem dropWhile_slash_shape (a b : List Char) :
    ∃ a2, List.dropWhile isWs (a ++ '/' :: '/' :: b) = a2 ++ '/' :: '/' :: b := by
  rw [dropWhile_append_split]
  split
  · exact ⟨[], by simp [List.dropWhile, slash_not_ws]⟩
  · exact ⟨List.dropWhile isWs a, rfl⟩

theorem reverse_slash_shape (a b : List Char) :
    (a ++ '/' :: '/' :: b).reverse = b.reverse ++ '/' :: '/' :: a.reverse := by
  simp

theorem pyStrip_shape (a b : List Char) :
    ∃ a2 b2, pyStrip (a ++ '/' :: '/' :: b) = a2 ++ '/' :: '/' :: b2 := by
  unfold pyStrip pyLstrip pyRstrip
  obtain ⟨a2, h2⟩ := dropWhile_slash_shape a b
  rw [h2, reverse_slash_shape]
  obtain ⟨a3, h3⟩ := dropWhile_slash_shape b.reverse a2.reverse
  rw [h3, reverse_slash_shape]
  exact ⟨a2.reverse.reverse, a3.reverse, by simp⟩


/- Helper lemmas about the line scanner. -/

theorem scanAux_cons_none_quote {c : Char} (h : isQuote c = true)
    (prev : Option Char) (l : List Char) :
    scanAux prev none (c :: l) = shift1 (scanAux (some c) (some c) l) := by
  simp [scanAux, h]

theorem scanAux_cons_none_found {c : Char} {l : List Char}
    (h1 : isQuote c = false) (h2 : c = '/' ∧ l.head? = some '/')
    (prev : Option Char) :
    scanAux prev none (c :: l) = (some 0, none) := by
  simp only [scanAux, h1, Bool.false_eq_true, if_false]
  rw [if_pos h2]

theorem scanAux_cons_none_other {c : Char} {l : List Char}
    (h1 : isQuote c = false) (h2 : ¬(c = '/' ∧ l.head? = some '/'))
    (prev : Option Char) :
    scanAux prev none (c :: l) = shift1 (scanAux (some c) none l) := by
  simp only [scanAux, h1, Bool.false_eq_true, if_false]
  rw [if_neg h2]

theorem scanAux_cons_some_close {c q : Char} {prev : Option Char}
    (h : c = q ∧ prev ≠ some '\\') (l : List Char) :
    scanAux prev (some q) (c :: l) = shift1 (scanAux (some c) none l) := by
  simp only [scanAux]
  rw [if_pos h]

theorem scanAux_cons_some_stay {c q : Char} {prev : Option Char}
    (h : ¬(c = q ∧ prev ≠ some '\\')) (l : List Char) :
    scanAux prev (some q) (c :: l) = shift1 (scanAux (some c) (some q) l) := by
  simp only [scanAux]
  rw [if_neg h]

theorem shift1_eq_some {r : Option Nat × Option Char} {j : Nat} {st2 : Option Char}
    (h : shift1 r = (some j, st2)) : ∃ j0, r = (some j0, st2) ∧ j = j0 + 1 := by
  rcases r with ⟨a, b⟩
  cases a with
  | none => simp [shift1] at h
  | some j0 =>
    simp only [shift1, Option.map_some', Prod.mk.injEq, Option.some.injEq] at h
    exact ⟨j0, by simp [h.1.symm, h.2], h.1.symm⟩

theorem shift1_eq_none {r : Option Nat × Option Char} {st2 : Option Char}
    (h : shift1 r = (none, st2)) : r = (none, st2) := by
  rcases r with ⟨a, b⟩
  cases a with
  | none => simpa [shift1] using h
  | some j0 => simp [shift1] at h

theorem shift1_as_shiftN (r : Option Nat × Option Char) : shift1 r = shiftN 1 r := by
  rcases r with ⟨a, b⟩
  cases a <;> simp [shift1, shiftN]

theorem shiftN_shiftN (m n : Nat) (r : Option Nat × Option Char) :
    shiftN m (shiftN n r) = shiftN (n + m) r := by
  rcases r with ⟨a, b⟩
  cases a <;> simp [shiftN, Nat.add_assoc]

theorem scan_over_ws :
    ∀ (ws : List Char) (rest : List Char) (prev : Option Char),
    (∀ c ∈ ws, isWs c = true) →
    scanAux prev none (ws ++ '/' :: '/' :: rest) = (some ws.length, none) := by
  intro ws
  induction ws with
  | nil =>
    intro rest prev _
    rw [List.nil_append]
    exact scanAux_cons_none_found (by decide) (by simp) prev
  | cons c ws ih =>
    intro rest prev h
    have hc : isWs c = true := h c (by simp)
    have h2 : c ≠ '/' := isWs_ne_slash hc
    rw [List.cons_append,
      scanAux_cons_none_other (isWs_not_isQuote hc) (fun hand => h2 hand.1) prev,
      ih rest (some c) (fun d hd => h d (by simp [hd]))]
    simp [shift1]

theorem take_len_lift (c : Char) (rest : List Char) (j0 : Nat) (b : List Char)
    (hb : (List.take j0 rest).length = j0)
    (hc2 : rest = List.take j0 rest ++ '/' :: '/' :: b) :
    (List.take (j0 + 1) (c :: rest)).length = j0 + 1 ∧
    c :: rest = List.take (j0 + 1) (c :: rest) ++ '/' :: '/' :: b := by
  constructor
  · simp [List.take_succ_cons, hb]
  · rw [List.take_succ_cons, List.cons_append]
    exact congrArg (c :: ·) hc2

theorem scan_found :
    ∀ (l : List Char) (prev st : Option Char) (j : Nat) (st2 : Option Char),
    scanAux prev st l = (some j, st2) →
    st2 = none ∧ (l.take j).length = j ∧ ∃ b, l = l.take j ++ '/' :: '/' :: b := by
  intro l
  induction l with
  | nil =>
    intro prev st j st2 h
    simp [scanAux] at h
  | cons c rest ih =>
    intro prev st j st2 h
    cases st with
    | none =>
      by_cases hq : isQuote c = true
      · rw [scanAux_cons_none_quote hq prev rest] at h
        obtain ⟨j0, hr, hj⟩ := shift1_eq_some h
        obtain ⟨ha, hb, b, hc2⟩ := ih (some c) (some c) j0 st2 hr
        subst hj
        exact ⟨ha, (take_len_lift c rest j0 b hb hc2).1, b, (take_len_lift c rest j0 b hb hc2).2⟩
      · have hq2 : isQuote c = false := by revert hq; cases isQuote c <;> simp
        by_cases hf : c = '/' ∧ rest.head? = some '/'
        · rw [scanAux_cons_none_found hq2 hf prev] at h
          simp only [Prod.mk.injEq, Option.some.injEq] at h
          obtain ⟨hj, hst⟩ := h
          subst hj
          cases rest with
          | nil => simp at hf
          | cons d rest2 =>
            have hd : d = '/' := by simpa using hf.2
            refine ⟨hst.symm, by simp, rest2, ?_⟩
            simp [hf.1, hd]
        · rw [scanAux_cons_none_other hq2 hf prev] at h
          obtain ⟨j0, hr, hj⟩ := shift1_eq_some h
          obtain ⟨ha, hb, b, hc2⟩ := ih (some c) none j0 st2 hr
          subst hj
          exact ⟨ha, (take_len_lift c rest j0 b hb hc2).1, b, (take_len_lift c rest j0 b hb hc2).2⟩
    | some q =>
      by_cases hcl : c = q ∧ prev ≠ some '\\'
      · rw [scanAux_cons_some_close hcl rest] at h
        obtain ⟨j0, hr, hj⟩ := shift1_eq_some h
        obtain ⟨ha, hb, b, hc2⟩ := ih (some c) none j0 st2 hr
        subst hj
        exact ⟨ha, (take_len_lift c rest j0 b hb hc2).1, b, (take_len_lift c rest j0 b hb hc2).2⟩
      · rw [scanAux_cons_some_stay hcl rest] at h
        obtain ⟨j0, hr, hj⟩ := shift1_eq_some h
        obtain ⟨ha, hb, b, hc2⟩ := ih (some c) (some q) j0 st2 hr
        subst hj
        exact ⟨ha, (take_len_lift c rest j0 b hb hc2).1, b, (take_len_lift c rest j0 b hb hc2).2⟩

/- Helper lemmas about the per-line step and the line loop. -/

theorem aggressive_core_true (pres rm ul : List Char → Bool) {l a b : List Char}
    (hshape : l = a ++ '/' :: '/' :: b) :
    should_remove_comment_core pres rm ul true l = true := by
  unfold should_remove_comment_core
  simp only [if_true, if_pos rfl]
  subst hshape
  obtain ⟨a2, b2, h2⟩ := pyStrip_shape a b
  rw [h2]
  exact containsSub_shape a2 b2

theorem processLineCore_no_marker {cls : List Char → Bool} {aggr : Bool} {i : Nat}
    {st : Option Char} {l : List Char} {st2 : Option Char}
    (h : scanAux none st l = (none, st2)) :
    processLineCore cls aggr i st l = (some l, st2, none) := by
  simp [processLineCore, h]

theorem processLineCore_found_keep {cls : List Char → Bool} {aggr : Bool} {i : Nat}
    {st : Option Char} {l : List Char} {j : Nat} {st2 : Option Char}
    (hs : scanAux none st l = (some j, st2)) (hc : cls l = false) :
    processLineCore cls aggr i st l = (some l, st2, none) := by
  simp [processLineCore, hs, hc]

theorem processLineCore_remove_normal {cls : List Char → Bool} {i : Nat}
    {st : Option Char} {l : List Char} {j : Nat} {st2 : Option Char}
    (hs : scanAux none st l = (some j, st2)) (hc : cls l = true) :
    processLineCore cls false i st l =
      (none, st2, some (RemovalEntry.wholeLine i (pyStrip l))) := by
  simp [processLineCore, hs, hc]

theorem processLineCore_remove_aggr_drop {cls : List Char → Bool} {i : Nat}
    {st : Option Char} {l : List Char} {j : Nat} {st2 : Option Char}
    (hs : scanAux none st l = (some j, st2)) (hc : cls l = true)
    (hcp : pyRstrip (l.take j) = []) :
    processLineCore cls true i st l =
      (none, st2, some (RemovalEntry.wholeLine i (pyStrip l))) := by
  simp [processLineCore, hs, hc, hcp]

theorem processLineCore_remove_aggr_inline {cls : List Char → Bool} {i : Nat}
    {st : Option Char} {l : List Char} {j : Nat} {st2 : Option Char}
    (hs : scanAux none st l = (some j, st2)) (hc : cls l = true)
    (hcp : pyRstrip (l.take j) ≠ []) :
    processLineCore cls true i st l =
      (some (pyRstrip (l.take j) ++ ['\n']), st2,
       some (RemovalEntry.inlineSuffix i (pyStrip (l.drop j)))) := by
  simp [processLineCore, hs, hc, hcp]

theorem processLine_kept {cls : List Char → Bool} {aggr : Bool} {i : Nat}
    {st : Option Char} {l : List Char} {out : Option (List Char)} {st2 : Option Char}
    (h : processLineCore cls aggr i st l = (out, st2, none)) : out = some l := by
  rcases hsc : scanAux none st l with ⟨r, s⟩
  cases r with
  | none =>
    rw [processLineCore_no_marker hsc] at h
    exact (Prod.mk.injEq _ _ _ _ ▸ h).1.symm
  | some j =>
    by_cases hcl : cls l = true
    · cases aggr with
      | false =>
        rw [processLineCore_remove_normal hsc hcl] at h
        simp at h
      | true =>
        by_cases hcp : pyRstrip (l.take j) = []
        · rw [processLineCore_remove_aggr_drop hsc hcl hcp] at h
          simp at h
        · rw [processLineCore_remove_aggr_inline hsc hcl hcp] at h
          simp at h
    · have hcl2 : cls l = false := by revert hcl; cases cls l <;> simp
      rw [processLineCore_found_keep hsc hcl2] at h
      exact (Prod.mk.injEq _ _ _ _ ▸ h).1.symm

theorem processLine_removed {cls : List Char → Bool} {aggr : Bool} {i : Nat}
    {st : Option Char} {l : List Char} {out : Option (List Char)} {st2 : Option Char}
    {e : RemovalEntry}
    (h : processLineCore cls aggr i st l = (out, st2, some e)) :
    out = none ∨ ∃ m, out = some m ∧ m.length < l.length := by
  rcases hsc : scanAux none st l with ⟨r, s⟩
  cases r with
  | none =>
    rw [processLineCore_no_marker hsc] at h
    simp at h
  | some j =>
    by_cases hcl : cls l = true
    · cases aggr with
      | false =>
        rw [processLineCore_remove_normal hsc hcl] at h
        exact Or.inl (Prod.mk.injEq _ _ _ _ ▸ h).1.symm
      | true =>
        by_cases hcp : pyRstrip (l.take j) = []
        · rw [processLineCore_remove_aggr_drop hsc hcl hcp] at h
          exact Or.inl (Prod.mk.injEq _ _ _ _ ▸ h).1.symm
        · rw [processLineCore_remove_aggr_inline hsc hcl hcp] at h
          refine Or.inr ⟨pyRstrip (l.take j) ++ ['\n'], (Prod.mk.injEq _ _ _ _ ▸ h).1.symm, ?_⟩
          obtain ⟨-, hlen, b, hshape⟩ := scan_found l none st j s hsc
          have h1 : (pyRstrip (l.take j)).length ≤ j := by
            calc (pyRstrip (l.take j)).length ≤ (l.take j).length := pyRstrip_length_le _
              _ = j := hlen
          have h2 : l.length = j + 2 + b.length := by
            rw [hshape]
            simp [hlen]
            omega
          simp only [List.length_append, List.length_cons, List.length_nil]
          omega
    · have hcl2 : cls l = false := by revert hcl; cases cls l <;> simp
      rw [processLineCore_found_keep hsc hcl2] at h
      simp at h

theorem clean_file_lines_cons (aggr : Bool) (i : Nat) (st : Option Char)
    (l : List Char) (ls : List (List Char)) {out : Option (List Char)}
    {st2 : Option Char} {e : Option RemovalEntry}
    (h : processLine aggr i st l = (out, st2, e)) :
    clean_file_lines aggr i st (l :: ls) =
      (match out with
       | some o => o :: (clean_file_lines aggr (i + 1) st2 ls).1
       | none => (clean_file_lines aggr (i + 1) st2 ls).1,
       match e with
       | some _ => (clean_file_lines aggr (i + 1) st2 ls).2.1 + 1
       | none => (clean_file_lines aggr (i + 1) st2 ls).2.1,
       match e with
       | some en => en :: (clean_file_lines aggr (i + 1) st2 ls).2.2
       | none => (clean_file_lines aggr (i + 1) st2 ls).2.2) := by
  rcases hr : clean_file_lines aggr (i + 1) st2 ls with ⟨outs, n, log⟩
  cases out <;> cases e <;> simp [clean_file_lines, h, hr]

theorem clean_file_lines_length_le (aggr : Bool) :
    ∀ (ls : List (List Char)) (i : Nat) (st : Option Char),
    (clean_file_lines aggr i st ls).1.length ≤ ls.length := by
  intro ls
  induction ls with
  | nil => intro i st; simp [clean_file_lines]
  | cons l ls ih =>
    intro i st
    rcases hp : processLine aggr i st l with ⟨out, st2, e⟩
    rw [clean_file_lines_cons aggr i st l ls hp]
    cases out with
    | none =>
      cases e <;> simpa using Nat.le_succ_of_le (ih (i + 1) st2)
    | some o =>
      cases e <;> simpa using Nat.succ_le_succ (ih (i + 1) st2)

theorem clean_file_lines_count_eq_log (aggr : Bool) :
    ∀ (ls : List (List Char)) (i : Nat) (st : Option Char),
    (clean_file_lines aggr i st ls).2.1 =
      (clean_file_lines aggr i st ls).2.2.length := by
  intro ls
  induction ls with
  | nil => intro i st; simp [clean_file_lines]
  | cons l ls ih =>
    intro i st
    rcases hp : processLine aggr i st l with ⟨out, st2, e⟩
    rw [clean_file_lines_cons aggr i st l ls hp]
    cases e with
    | none => cases out <;> simpa using ih (i + 1) st2
    | some en => cases out <;> simpa using ih (i + 1) st2

theorem clean_file_lines_changed (aggr : Bool) :
    ∀ (ls : List (List Char)) (i : Nat) (st : Option Char),
    0 < (clean_file_lines aggr i st ls).2.1 →
    (clean_file_lines aggr i st ls).1 ≠ ls := by
  intro ls
  induction ls with
  | nil => intro i st h; simp [clean_file_lines] at h
  | cons l ls ih =>
    intro i st h
    rcases hp : processLine aggr i st l with ⟨out, st2, e⟩
    rw [clean_file_lines_cons aggr i st l ls hp] at h ⊢
    cases e with
    | none =>
      have hout : out = some l := processLine_kept hp
      subst hout
      simp only at h ⊢
      intro heq
      have heq2 : (clean_file_lines aggr (i + 1) st2 ls).1 = ls := by
        simpa using heq
      exact ih (i + 1) st2 (by simpa using h) heq2
    | some en =>
      rcases processLine_removed hp with hout | ⟨m, hout, hlen⟩
      · subst hout
        simp only at h ⊢
        intro heq
        have hl := congrArg List.length heq
        simp only [List.length_cons] at hl
        have hle := clean_file_lines_length_le aggr ls (i + 1) st2
        omega
      · subst hout
        simp only at h ⊢
        intro heq
        have hm : m = l := by
          have := congrArg (List.head? ·) heq
          simpa using this
        rw [hm] at hlen
        omega

theorem second_pass_clean :
    ∀ (ls : List (List Char)) (i1 i : Nat), noCarriedState none ls = true →
    clean_file_lines false i none ((clean_file_lines false i1 none ls).1) =
      ((clean_file_lines false i1 none ls).1, 0, []) := by
  intro ls
  induction ls with
  | nil => intro i1 i _; simp [clean_file_lines]
  | cons l ls ih =>
    intro i1 i h
    have h0 : (scanAux none none l).2 = none ∧
        noCarriedState (scanAux none none l).2 ls = true := by
      simpa [noCarriedState, Bool.and_eq_true, decide_eq_true_eq] using h
    obtain ⟨hst, hrest⟩ := h0
    have hrest2 : noCarriedState none ls = true := by rwa [hst] at hrest
    rcases hsc : scanAux none none l with ⟨r, s⟩
    have hs : s = none := by rw [hsc] at hst; exact hst
    subst hs
    cases r with
    | none =>
      have hp : processLine false i1 none l = (some l, none, none) :=
        processLineCore_no_marker hsc
      have hp2 : processLine false i none l = (some l, none, none) :=
        processLineCore_no_marker hsc
      rw [clean_file_lines_cons false i1 none l ls hp]
      simp only
      rw [clean_file_lines_cons false i none l _ hp2]
      rw [ih (i1 + 1) (i + 1) hrest2]
    | some j =>
      by_cases hcl : should_remove_comment false l = true
      · have hp : processLine false i1 none l =
            (none, none, some (RemovalEntry.wholeLine i1 (pyStrip l))) :=
          processLineCore_remove_normal hsc hcl
        rw [clean_file_lines_cons false i1 none l ls hp]
        simp only
        exact ih (i1 + 1) i hrest2
      · have hcl2 : should_remove_comment false l = false := by
          revert hcl; cases should_remove_comment false l <;> simp
        have hp : processLine false i1 none l = (some l, none, none) :=
          processLineCore_found_keep hsc hcl2
        have hp2 : processLine false i none l = (some l, none, none) :=
          processLineCore_found_keep hsc hcl2
        rw [clean_file_lines_cons false i1 none l ls hp]
        simp only
        rw [clean_file_lines_cons false i none l _ hp2]
        rw [ih (i1 + 1) (i + 1) hrest2]

/- Helper lemmas for the string-literal skipping property and the toggle
   rule. -/

theorem containsSub_cons_false {p : List Char} {c : Char} {l : List Char}
    (h : containsSub p (c :: l) = false) : containsSub p l = false := by
  cases hcl : containsSub p l with
  | false => rfl
  | true =>
    rw [containsSub, hcl] at h
    simp at h

theorem scan_app_nonquote :
    ∀ (a : List Char) (prev : Option Char) (q : Char) (rest : List Char),
    (∀ c ∈ a, isQuote c = false) → containsSub slashSlash a = false →
    isQuote q = true →
    scanAux prev none (a ++ q :: rest) =
      shiftN (a.length + 1) (scanAux (some q) (some q) rest) := by
  intro a
  induction a with
  | nil =>
    intro prev q rest _ _ hq
    rw [List.nil_append, scanAux_cons_none_quote hq prev rest, shift1_as_shiftN]
    simp
  | cons c a ih =>
    intro prev q rest h1 h2 hq
    have hc : isQuote c = false := h1 c (by simp)
    have hcond : ¬(c = '/' ∧ (a ++ q :: rest).head? = some '/') := by
      rintro ⟨hcs, hh⟩
      subst hcs
      cases a with
      | nil =>
        simp only [List.nil_append, List.head?_cons, Option.some.injEq] at hh
        rw [hh] at hq
        exact absurd hq (by decide)
      | cons d a2 =>
        simp only [List.cons_append, List.head?_cons, Option.some.injEq] at hh
        subst hh
        rw [containsSub] at h2
        simp [List.isPrefixOf, slashSlash] at h2
    rw [List.cons_append, scanAux_cons_none_other hc hcond prev,
      ih (some c) q rest (fun d hd => h1 d (by simp [hd])) (containsSub_cons_false h2) hq,
      shift1_as_shiftN, shiftN_shiftN]
    have harith : a.length + 1 + 1 = (c :: a).length + 1 := by simp
    rw [harith]

theorem scan_in_string (q : Char) (b2 : List Char) :
    ∀ (body : List Char) (prev : Option Char),
    (∀ c ∈ body, c ≠ q ∧ c ≠ '\\') → prev ≠ some '\\' →
    scanAux prev (some q) (body ++ q :: b2) =
      shiftN (body.length + 1) (scanAux (some q) none b2) := by
  intro body
  induction body with
  | nil =>
    intro prev _ hprev
    rw [List.nil_append, scanAux_cons_some_close ⟨rfl, hprev⟩ b2, shift1_as_shiftN]
    simp
  | cons c body ih =>
    intro prev h hprev
    have hc : c ≠ q ∧ c ≠ '\\' := h c (by simp)
    have hstay : ¬(c = q ∧ prev ≠ some '\\') := by
      rintro ⟨hcq, -⟩
      exact hc.1 hcq
    rw [List.cons_append, scanAux_cons_some_stay hstay (body ++ q :: b2),
      ih (some c) (fun d hd => h d (by simp [hd]))
        (fun he => hc.2 (by simpa using he)),
      shift1_as_shiftN, shiftN_shiftN]
    have harith : body.length + 1 + 1 = (c :: body).length + 1 := by simp
    rw [harith]

theorem shift1_fst (r : Option Nat × Option Char) :
    (shift1 r).1 = r.1.map (· + 1) := rfl

theorem shift1_snd (r : Option Nat × Option Char) : (shift1 r).2 = r.2 := rfl

theorem map_add_one_none {x : Option Nat} (h : x.map (· + 1) = none) : x = none := by
  cases x with
  | none => rfl
  | some v => simp at h

theorem scan_exit_eq_fold :
    ∀ (l : List Char) (prev st : Option Char),
    (scanAux prev st l).1 = none →
    (scanAux prev st l).2 = stringStateFold prev st l := by
  intro l
  induction l with
  | nil => intro prev st _; rfl
  | cons c rest ih =>
    intro prev st h
    cases st with
    | none =>
      by_cases hq : isQuote c = true
      · rw [scanAux_cons_none_quote hq prev rest] at h ⊢
        rw [shift1_fst] at h
        rw [shift1_snd,
          show stringStateFold prev none (c :: rest) =
            stringStateFold (some c) (some c) rest from by
              simp [stringStateFold, stringStep, hq]]
        exact ih (some c) (some c) (map_add_one_none h)
      · have hq2 : isQuote c = false := by revert hq; cases isQuote c <;> simp
        by_cases hf : c = '/' ∧ rest.head? = some '/'
        · rw [scanAux_cons_none_found hq2 hf prev] at h
          simp at h
        · rw [scanAux_cons_none_other hq2 hf prev] at h ⊢
          rw [shift1_fst] at h
          rw [shift1_snd,
            show stringStateFold prev none (c :: rest) =
              stringStateFold (some c) none rest from by
                simp [stringStateFold, stringStep, hq2]]
          exact ih (some c) none (map_add_one_none h)
    | some q =>
      by_cases hcl : c = q ∧ prev ≠ some '\\'
      · rw [scanAux_cons_some_close hcl rest] at h ⊢
        rw [shift1_fst] at h
        rw [shift1_snd,
          show stringStateFold prev (some q) (c :: rest) =
            stringStateFold (some c) none rest from by
              simp [stringStateFold, stringStep, hcl]]
        exact ih (some c) none (map_add_one_none h)
      · rw [scanAux_cons_some_stay hcl rest] at h ⊢
        rw [shift1_fst] at h
        rw [shift1_snd,
          show stringStateFold prev (some q) (c :: rest) =
            stringStateFold (some c) (some q) rest from by
              simp [stringStateFold, stringStep, hcl]]
        exact ih (some c) (some q) (map_add_one_none h)

/- Helper lemmas about the normal-mode classifier. -/

theorem slashSlash_isPrefixOf (l : List Char) :
    slashSlash.isPrefixOf ('/' :: '/' :: l) = true := by
  simp [slashSlash, List.isPrefixOf]

theorem dropWhile_isWs_slashes (l : List Char) :
    List.dropWhile isWs ('/' :: '/' :: l) = '/' :: '/' :: l := by
  simp [List.dropWhile, slash_not_ws]

theorem core_normal_keep {pres rm ul : List Char → Bool} {l : List Char}
    (hpres : pres l = false) (hrm : rm (pyStrip l) = false)
    (hstart : slashSlash.isPrefixOf (List.dropWhile isWs (pyStrip l)) = true)
    (hlen : ¬(comment_body l).length < 2)
    (hul : ul (comment_body l) = false) :
    should_remove_comment_core pres rm ul false l = false := by
  simp [should_remove_comment_core, hpres, hrm, hstart, hlen, hul]

theorem core_normal_drop {pres rm ul : List Char → Bool} {l : List Char}
    (hpres : pres l = false)
    (hstart : slashSlash.isPrefixOf (List.dropWhile isWs (pyStrip l)) = true)
    (hcond : (comment_body l).length < 2 ∨ ul (comment_body l) = true) :
    should_remove_comment_core pres rm ul false l = true := by
  by_cases hrm : rm (pyStrip l) = true
  · simp [should_remove_comment_core, hpres, hrm]
  · have hrm2 : rm (pyStrip l) = false := by
      revert hrm; cases rm (pyStrip l) <;> simp
    by_cases hlen : (comment_body l).length < 2
    · simp [should_remove_comment_core, hpres, hrm2, hstart, hlen]
    · rcases hcond with hc | hc
      · exact absurd hc hlen
      · simp [should_remove_comment_core, hpres, hrm2, hstart, hlen, hc]

/- The claim theorems. -/

/-- Claim C2: in aggressive mode, for every line with an unquoted marker at
    offset j, the output never contains the marker or anything after it: when
    the right-stripped code prefix before the marker is nonempty, the emitted
    line is exactly that prefix plus a newline (one line in, one line out, an
    inline-suffix removal is logged); when it is empty, the line is dropped
    (one line fewer, a whole-line removal is logged).  The statement is
    universally quantified over the preserve, remove and denylist rule
    tables, so none of them influences the result. -/
theorem C2_aggressive_strip (pres rm ul : List Char → Bool) (i : Nat)
    (st : Option Char) (l : List Char) (j : Nat) (st2 : Option Char)
    (h : scanAux none st l = (some j, st2)) :
    (pyRstrip (l.take j) = [] →
      processLineCore (should_remove_comment_core pres rm ul true) true i st l
        = (none, st2, some (RemovalEntry.wholeLine i (pyStrip l)))) ∧
    (pyRstrip (l.take j) ≠ [] →
      processLineCore (should_remove_comment_core pres rm ul true) true i st l
        = (some (pyRstrip (l.take j) ++ ['\n']), st2,
           some (RemovalEntry.inlineSuffix i (pyStrip (l.drop j))))) := by
  obtain ⟨hst2, hlen, b, hshape⟩ := scan_found l none st j st2 h
  have hcls := aggressive_core_true pres rm ul hshape
  exact ⟨fun hcp => processLineCore_remove_aggr_drop h hcls hcp,
         fun hcp => processLineCore_remove_aggr_inline h hcls hcp⟩

/-- Witness for C2 at the aggressive-mode scenario line of the spec. -/
theorem C2_aggressive_strip_witness :
    processLine true 1 none (("doWork(); // explanatory note\n").toList)
      = (some (("doWork();\n").toList), none,
         some (RemovalEntry.inlineSuffix 1 (("// explanatory note").toList))) := by
  have h := (C2_aggressive_strip should_preserve_comment matches_remove_patterns
    useless_match 1 none (("doWork(); // explanatory note\n").toList) 10 none
    (by decide)).2 (by decide)
  exact h.trans (by decide)

/-- Claim C3: in normal mode a line satisfying should_preserve_comment is
    never removed and passes through unchanged, for arbitrary contents of
    the remove patterns and of the denylist (preserve rules take absolute
    precedence). -/
theorem C3_preserve_precedence (rm ul : List Char → Bool) (i : Nat)
    (st : Option Char) (l : List Char)
    (h : should_preserve_comment l = true) :
    should_remove_comment_core should_preserve_comment rm ul false l = false ∧
    (processLineCore
      (should_remove_comment_core should_preserve_comment rm ul false)
      false i st l).1 = some l := by
  have hcls : should_remove_comment_core should_preserve_comment rm ul false l
      = false := by
    simp [should_remove_comment_core, h]
  refine ⟨hcls, ?_⟩
  rcases hsc : scanAux none st l with ⟨r, s⟩
  cases r with
  | none => rw [processLineCore_no_marker hsc]
  | some j => rw [processLineCore_found_keep hsc hcls]

/-- Witness for C3 at the scenario line of the spec: the TODO line is
    preserved. -/
theorem C3_preserve_precedence_witness :
    should_remove_comment false (("// TODO: fix this later\n").toList) = false ∧
    (processLine false 1 none (("// TODO: fix this later\n").toList)).1
      = some (("// TODO: fix this later\n").toList) :=
  C3_preserve_precedence matches_remove_patterns useless_match 1 none
    (("// TODO: fix this later\n").toList) (by decide)

/-- Counterexample to claim C1 as stated: the whole-line comment
    `// zebra elephant` satisfies every hypothesis of the claim (no preserve
    pattern, no block delimiter, no leading star, no important keyword, body
    of length 14, leading word in no denylist phrase), yet the classifier
    removes it and the line does not pass through: the second remove pattern
    `^\s*//\s+\w+.*$`, which the claim does not account for, matches any
    whole-line comment whose marker is followed by whitespace and a word
    character. -/
theorem C1_counterexample :
    should_preserve_comment (("// zebra elephant\n").toList) = false ∧
    2 ≤ (comment_body (("// zebra elephant\n").toList)).length ∧
    useless_match (comment_body (("// zebra elephant\n").toList)) = false ∧
    should_remove_comment false (("// zebra elephant\n").toList) = true ∧
    processLine false 1 none (("// zebra elephant\n").toList)
      = (none, none,
         some (RemovalEntry.wholeLine 1 (("// zebra elephant").toList))) := by
  refine ⟨by decide, by decide, by decide, by decide, by decide⟩

/-- Claim C1 as amended: the conclusion holds once the claim also requires
    that neither remove pattern matches the stripped line (in particular the
    comment body must not begin with whitespace followed by a word
    character).  Then a whole-line comment that is not preserved, has a body
    of at least the minimum length and no denylist leading word is kept and
    passes through unchanged. -/
theorem C1_keep_plain (ws rest : List Char) (i : Nat)
    (hws : ∀ c ∈ ws, isWs c = true)
    (hpres : should_preserve_comment (ws ++ '/' :: '/' :: rest) = false)
    (hrm : matches_remove_patterns (pyStrip (ws ++ '/' :: '/' :: rest)) = false)
    (hlen : 2 ≤ (comment_body (ws ++ '/' :: '/' :: rest)).length)
    (hul : useless_match (comment_body (ws ++ '/' :: '/' :: rest)) = false) :
    should_remove_comment false (ws ++ '/' :: '/' :: rest) = false ∧
    processLine false i none (ws ++ '/' :: '/' :: rest)
      = (some (ws ++ '/' :: '/' :: rest), none, none) := by
  have hstart : slashSlash.isPrefixOf
      (List.dropWhile isWs (pyStrip (ws ++ '/' :: '/' :: rest))) = true := by
    rw [pyStrip_ws_slashes ws rest hws, dropWhile_isWs_slashes]
    exact slashSlash_isPrefixOf _
  have hcls : should_remove_comment false (ws ++ '/' :: '/' :: rest) = false :=
    core_normal_keep hpres hrm hstart (by omega) hul
  refine ⟨hcls, ?_⟩
  have hsc : scanAux none none (ws ++ '/' :: '/' :: rest)
      = (some ws.length, none) := scan_over_ws ws rest none hws
  exact processLineCore_found_keep hsc hcls

/-- Witness for the amended C1: the line `//~~zebra` (body of length 7, no
    whitespace after the marker, so no remove pattern fires) is kept. -/
theorem C1_keep_plain_witness :
    should_remove_comment false (("//~~zebra\n").toList) = false ∧
    processLine false 1 none (("//~~zebra\n").toList)
      = (some (("//~~zebra\n").toList), none, none) := by
  have h := C1_keep_plain [] (("~~zebra\n").toList) 1 (by decide) (by decide)
    (by decide) (by decide) (by decide)
  exact ⟨h.1, h.2⟩

/-- Claim C9: in normal mode a whole-line comment that is not preserved and
    whose body is empty or shorter than 2 characters, or whose body has a
    denylist phrase as a case-insensitive prefix, is removed whole and
    logged. -/
theorem C9_drop_useless (ws rest : List Char) (i : Nat)
    (hws : ∀ c ∈ ws, isWs c = true)
    (hpres : should_preserve_comment (ws ++ '/' :: '/' :: rest) = false)
    (hcond : (comment_body (ws ++ '/' :: '/' :: rest)).length < 2 ∨
      useless_match (comment_body (ws ++ '/' :: '/' :: rest)) = true) :
    should_remove_comment false (ws ++ '/' :: '/' :: rest) = true ∧
    processLine false i none (ws ++ '/' :: '/' :: rest)
      = (none, none,
         some (RemovalEntry.wholeLine i (pyStrip (ws ++ '/' :: '/' :: rest)))) := by
  have hstart : slashSlash.isPrefixOf
      (List.dropWhile isWs (pyStrip (ws ++ '/' :: '/' :: rest))) = true := by
    rw [pyStrip_ws_slashes ws rest hws, dropWhile_isWs_slashes]
    exact slashSlash_isPrefixOf _
  have hcls : should_remove_comment false (ws ++ '/' :: '/' :: rest) = true :=
    core_normal_drop hpres hstart hcond
  refine ⟨hcls, ?_⟩
  have hsc : scanAux none none (ws ++ '/' :: '/' :: rest)
      = (some ws.length, none) := scan_over_ws ws rest none hws
  exact processLineCore_remove_normal hsc hcls

/-- Witness for C9 at the scenario line of the spec: the line with a bare
    create-component phrase is dropped whole. -/
theorem C9_drop_useless_witness :
    should_remove_comment false (("// 创建组件\n").toList) = true ∧
    processLine false 1 none (("// 创建组件\n").toList)
      = (none, none,
         some (RemovalEntry.wholeLine 1 (("// 创建组件").toList))) := by
  have h := C9_drop_useless [] ((" 创建组件\n").toList) 1 (by decide) (by decide)
    (Or.inr (by decide))
  exact ⟨h.1, h.2.trans (by decide)⟩

/-- Counterexample to claim C4 as stated: on the two-character line
    backslash-quote the only quote character is immediately preceded by an
    unescaped backslash, so by the claim it must be inert and the scanner
    must leave the line outside a string (the claim covers every quote
    occurrence, opening or closing); the scanner of the code, whose opening
    test never consults the preceding character, opens a string there and
    exits the line inside it, disagreeing with the toggle rule worded by the
    claim. -/
theorem C4_counterexample :
    (scanAux none none ['\\', '"']).2 = some '"' ∧
    claimStringState ['\\', '"'] = none ∧
    (scanAux none none ['\\', '"']).2 ≠ claimStringState ['\\', '"'] := by
  refine ⟨by decide, by decide, by decide⟩

/-- Claim C4 as amended: on any line on which no unquoted marker is found,
    the exit state of the scanner equals the fold of the toggle rule the
    code actually implements: outside a string any quote character opens a
    string unconditionally (even when preceded by a backslash); inside a
    string the same quote character closes it unless the immediately
    preceding character is a backslash, whether or not that backslash is
    itself escaped, and a quote at the start of a line always closes; a
    quote inside a string opened by a different quote character is inert. -/
theorem C4_toggle_rule (l : List Char) (prev st : Option Char)
    (h : (scanAux prev st l).1 = none) :
    (scanAux prev st l).2 = stringStateFold prev st l :=
  scan_exit_eq_fold l prev st h

/-- Witness for the amended C4 on a line that opens a string and leaves it
    open. -/
theorem C4_toggle_rule_witness :
    (scanAux none none (("ab\"cd").toList)).2 = some '"' ∧
    stringStateFold none none (("ab\"cd").toList) = some '"' := by
  have h := C4_toggle_rule (("ab\"cd").toList) none none (by decide)
  exact ⟨h.trans (by decide), by decide⟩

/-- Claim C5: scanning from outside a string, a marker inside a properly
    closed string literal is never reported: the scan of
    a ++ quote ++ body ++ quote ++ b (with no quote and no marker in a, and
    no closing quote or backslash in the body) reports exactly what the scan
    of the remainder b reports, shifted past the closing quote, so any
    reported offset lies after the string closes.  In the concrete scenario
    line of the spec the offset found is the one of the late marker and the
    disposition is Keep: the line passes through unchanged. -/
theorem C5_string_skip (a : List Char) (q : Char) (body b : List Char)
    (ha1 : ∀ c ∈ a, isQuote c = false)
    (ha2 : containsSub slashSlash a = false)
    (hq : isQuote q = true)
    (hb : ∀ c ∈ body, c ≠ q ∧ c ≠ '\\') :
    scanAux none none (a ++ q :: (body ++ q :: b))
      = shiftN (a.length + body.length + 2) (scanAux (some q) none b) ∧
    processLine false 1 none
      (("const url = \"http://foo\"; // see https://bar\n").toList)
      = (some (("const url = \"http://foo\"; // see https://bar\n").toList),
         none, none) := by
  constructor
  · rw [scan_app_nonquote a none q (body ++ q :: b) ha1 ha2 hq,
      scan_in_string q b body (some q) hb
        (fun he => isQuote_ne_backslash hq (by simpa using he)),
      shiftN_shiftN]
    congr 1
    omega
  · decide

/-- Witness for C5 at the scenario line of the spec: the marker is reported
    at offset 26, after the string literal closes. -/
theorem C5_string_skip_witness :
    scanAux none none (("const url = \"http://foo\"; // see https://bar\n").toList)
      = (some 26, none) := by
  have h := (C5_string_skip (("const url = ").toList) '"' (("http://foo").toList)
    (("; // see https://bar\n").toList) (by decide) (by decide) (by decide)
    (by decide)).1
  have e : (("const url = \"http://foo\"; // see https://bar\n").toList)
      = (("const url = ").toList) ++ '"' ::
        ((("http://foo").toList) ++ '"' :: (("; // see https://bar\n").toList)) := by
    decide
  rw [e, h]
  decide

/-- Input file refuting the idempotence claim C6. -/
def c6_input : List (List Char) :=
  [("x = \"a\n").toList, ("//import \" //\n").toList,
   ("\"\n").toList, ("// import stuff\n").toList]

/-- Counterexample to claim C6 as stated: normal-mode processing is not
    idempotent.  In the input file the second line enters the scan inside a
    string opened on the first line, closes it and is removed at its late
    marker, so the third line is scanned from outside a string and toggles
    the state, hiding the marker of the fourth line, which is kept.  On the
    output of the first pass the states shift: the third line now closes the
    string and the fourth line is scanned from outside, so the second pass
    removes one more line and changes the content. -/
theorem C6_counterexample :
    (clean_file_lines false 1 none
      ((clean_file_lines false 1 none c6_input).1)).2.1 = 1 ∧
    (clean_file_lines false 1 none
      ((clean_file_lines false 1 none c6_input).1)).1
      ≠ (clean_file_lines false 1 none c6_input).1 := by
  refine ⟨by decide, by decide⟩

/-- Claim C6 as amended: normal-mode processing is idempotent on every file
    for which the first pass carries no inside-string state across a line
    boundary (in particular whenever every line closes the strings it
    opens); on such files the second pass returns the first output unchanged
    with zero removals and an empty log. -/
theorem C6_idempotent_no_carry (lines : List (List Char))
    (h : noCarriedState none lines = true) :
    clean_file_lines false 1 none ((clean_file_lines false 1 none lines).1)
      = ((clean_file_lines false 1 none lines).1, 0, []) :=
  second_pass_clean lines 1 1 h

/-- Witness for the amended C6 on a two-line file with one removal. -/
theorem C6_idempotent_no_carry_witness :
    clean_file_lines false 1 none
      ((clean_file_lines false 1 none
        [("// import a\n").toList, ("code();\n").toList]).1)
      = ((clean_file_lines false 1 none
          [("// import a\n").toList, ("code();\n").toList]).1, 0, []) :=
  C6_idempotent_no_carry [("// import a\n").toList, ("code();\n").toList]
    (by decide)

/-- Claim C7: a dry run never changes the on-disk content no matter how many
    removals are logged; in execute mode (with readable content and a
    successful write) the content changes if and only if the removal count
    is positive; the count always equals the length of the removal log; and
    with a zero count the content is unchanged in every mode. -/
theorem C7_write_frame (aggr : Bool) (lines : List (List Char)) :
    (∀ decodeOk writeOk : Bool,
      (clean_file_model aggr true decodeOk writeOk lines).1 = lines) ∧
    ((clean_file_model aggr false true true lines).1 ≠ lines ↔
      0 < (clean_file_lines aggr 1 none lines).2.1) ∧
    (clean_file_lines aggr 1 none lines).2.1
      = (clean_file_lines aggr 1 none lines).2.2.length ∧
    ((clean_file_lines aggr 1 none lines).2.1 = 0 →
      ∀ dryRun decodeOk writeOk : Bool,
      (clean_file_model aggr dryRun decodeOk writeOk lines).1 = lines) := by
  have hcnt := clean_file_lines_count_eq_log aggr lines 1 none
  rcases hr : clean_file_lines aggr 1 none lines with ⟨outs, n, log⟩
  refine ⟨?_, ?_, ?_, ?_⟩
  · intro dok wok
    cases dok <;> simp [clean_file_model, hr]
  · constructor
    · intro hne
      by_contra hz
      have hn0 : n = 0 := by simp at hz; omega
      subst hn0
      exact hne (by simp [clean_file_model, hr])
    · intro hpos
      have hpos2 : 0 < n := by simpa using hpos
      have hch := clean_file_lines_changed aggr lines 1 none
        (by rw [hr]; exact hpos2)
      rw [hr] at hch
      simpa [clean_file_model, hr, hpos2] using hch
  · rw [hr] at hcnt
    simpa using hcnt
  · intro hz dry dok wok
    have hn0 : n = 0 := by simpa using hz
    subst hn0
    cases dry <;> cases dok <;> simp [clean_file_model, hr]

/-- Witness for C7: a one-line file whose only line is removed is unchanged
    in a dry run and changed in execute mode. -/
theorem C7_write_frame_witness :
    (clean_file_model false true true true [("// import a\n").toList]).1
      = [("// import a\n").toList] ∧
    (clean_file_model false false true true [("// import a\n").toList]).1
      ≠ [("// import a\n").toList] := by
  have h := C7_write_frame false [("// import a\n").toList]
  exact ⟨h.1 true true, h.2.1.mpr (by decide)⟩

/-- Claim C8: when the content is undecodable the file is skipped with a
    zero count and empty log and unchanged content, in every mode; when the
    write of a scanned file with removals fails, the returned count is zero
    and the log empty (the in-memory removals are discarded). -/
theorem C8_error_frame (aggr dryRun writeOk : Bool) (lines : List (List Char)) :
    clean_file_model aggr dryRun false writeOk lines = (lines, 0, []) ∧
    (0 < (clean_file_lines aggr 1 none lines).2.1 →
      clean_file_model aggr false true false lines = (lines, 0, [])) := by
  constructor
  · simp [clean_file_model]
  · intro hpos
    rcases hr : clean_file_lines aggr 1 none lines with ⟨outs, n, log⟩
    rw [hr] at hpos
    simp [clean_file_model, hr, hpos]

/-- Witness for C8 on a one-line file with one removal and a failing
    write. -/
theorem C8_error_frame_witness :
    clean_file_model false false true false [("// import a\n").toList]
      = ([("// import a\n").toList], 0, []) :=
  (C8_error_frame false false false [("// import a\n").toList]).2 (by decide)

/-- Counterexample to claim C10 as stated: the version 01.2.3 splits into
    three parts that are all numeric, yet with an unrecognised increment
    type the function does not return the version unchanged: the parts are
    re-rendered from their numeric values, so 01.2.3 becomes 1.2.3. -/
theorem C10_counterexample :
    splitOnDot (("01.2.3").toList)
      = [("01").toList, ("2").toList, ("3").toList] ∧
    pyInt (("01").toList) = some 1 ∧
    pyInt (("2").toList) = some 2 ∧
    pyInt (("3").toList) = some 3 ∧
    increment_version (("01.2.3").toList) (("none").toList)
      = Except.ok (some (("1.2.3").toList)) ∧
    ("1.2.3").toList ≠ ("01.2.3").toList := by
  refine ⟨by decide, by decide, by decide, by decide, by rfl, by decide⟩

/-- Claim C10 as amended: increment_version returns None exactly when the
    split on dots does not give three parts; on three parts that int()
    accepts with values a, b and c it returns the rendering of (a+1).0.0,
    a.(b+1).0 or a.b.(c+1) for the three recognised increment types, and for
    any other increment type the rendering of a.b.c (equal to the input
    whenever the parts are canonical decimal numerals); when some part is
    not numeric a ValueError is raised, although validate_version accepts
    pre-release versions such as 1.0.0-beta, on which the function then
    always raises. -/
theorem C10_increment_semantics :
    (∀ (v t : List Char), (splitOnDot v).length ≠ 3 →
      increment_version v t = Except.ok none) ∧
    (∀ (v x y z : List Char) (a b c : Int), splitOnDot v = [x, y, z] →
      pyInt x = some a → pyInt y = some b → pyInt z = some c →
      increment_version v (("major").toList)
          = Except.ok (some (renderVersion (a + 1) 0 0)) ∧
      increment_version v (("minor").toList)
          = Except.ok (some (renderVersion a (b + 1) 0)) ∧
      increment_version v (("patch").toList)
          = Except.ok (some (renderVersion a b (c + 1))) ∧
      (∀ t : List Char, t ≠ ("major").toList → t ≠ ("minor").toList →
        t ≠ ("patch").toList →
        increment_version v t = Except.ok (some (renderVersion a b c)))) ∧
    (∀ (v x y z t : List Char), splitOnDot v = [x, y, z] →
      (pyInt x = none ∨ pyInt y = none ∨ pyInt z = none) →
      increment_version v t = Except.error ()) ∧
    validate_version (("1.0.0-beta").toList) = true ∧
    (∀ t : List Char,
      increment_version (("1.0.0-beta").toList) t = Except.error ()) := by
  refine ⟨?_, ?_, ?_, by decide, ?_⟩
  · intro v t h
    rcases hs : splitOnDot v with _ | ⟨x, _ | ⟨y, _ | ⟨z, _ | ⟨w, rest⟩⟩⟩⟩
    · simp [increment_version, hs]
    · simp [increment_version, hs]
    · simp [increment_version, hs]
    · rw [hs] at h
      simp at h
    · simp [increment_version, hs]
  · intro v x y z a b c hs hx hy hz
    refine ⟨?_, ?_, ?_, ?_⟩
    · simp [increment_version, hs, hx, hy, hz]
    · simp [increment_version, hs, hx, hy, hz]
    · simp [increment_version, hs, hx, hy, hz]
    · intro t h1 h2 h3
      simp only [increment_version, hs, hx, hy, hz]
      rw [if_neg h1, if_neg h2, if_neg h3]
  · intro v x y z t hs hnone
    rcases hnone with h | h | h
    · rcases hy2 : pyInt y with _ | b2 <;> rcases hz2 : pyInt z with _ | c2 <;>
        simp [increment_version, hs, h, hy2, hz2]
    · rcases hx2 : pyInt x with _ | a2 <;> rcases hz2 : pyInt z with _ | c2 <;>
        simp [increment_version, hs, h, hx2, hz2]
    · rcases hx2 : pyInt x with _ | a2 <;> rcases hy2 : pyInt y with _ | b2 <;>
        simp [increment_version, hs, h, hx2, hy2]
  · intro t
    rfl

/-- Witness for the amended C10: a two-part version yields None and a
    canonical three-part version is incremented. -/
theorem C10_increment_semantics_witness :
    increment_version (("1.2").toList) (("patch").toList) = Except.ok none ∧
    increment_version (("1.2.3").toList) (("major").toList)
      = Except.ok (some (("2.0.0").toList)) := by
  refine ⟨C10_increment_semantics.1 (("1.2").toList) (("patch").toList)
    (by decide), ?_⟩
  have h := (C10_increment_semantics.2.1 (("1.2.3").toList) (("1").toList)
    (("2").toList) (("3").toList) 1 2 3 (by decide) (by decide) (by decide)
    (by decide)).1
  exact h.trans (by rfl)
